import Mathlib

/-!
Verification of the products catalog service (`src/app`): the pydantic data
model with its field validators (`models.py`) and the in-memory CRUD service
layer (`services.py`), shallowly embedded in Lean.

The Python store is a pair of module-level globals: `products`, a dict from
int id to Product (Python dicts preserve insertion order), and the counter
`next_id`.  We embed the dict as an insertion-ordered association list and
thread the store state explicitly through the service functions.  Raising
`HTTPException` is embedded as returning `Except.error`; the store component
returned alongside the result is the state of the globals after the call.
-/

deriving instance DecidableEq for Except

/-- A raw JSON-ish field value as received in a request body, before
pydantic validation.  JSON distinguishes integers, non-integral numbers,
booleans, null and strings; floats are modelled as rationals. -/
inductive RawVal where
  | vnull : RawVal
  | vbool (b : Bool) : RawVal
  | vint (n : Int) : RawVal
  | vfloat (q : Rat) : RawVal
  | vstr (s : String) : RawVal
deriving DecidableEq

/-- A raw request body for a ProductDetails: each field either present
(with a raw value) or entirely absent.  Mirrors the set of fields declared
on `ProductDetails` in models.py. -/
structure RawInput where
  name : Option RawVal
  type : Option RawVal
  inventory : Option RawVal
  cost : Option RawVal
deriving DecidableEq

/-- `ProductType`: closed string enumeration from models.py. -/
inductive ProductType where
  | book : ProductType
  | food : ProductType
  | gadget : ProductType
  | other : ProductType
deriving DecidableEq

/-- Enum lookup: the string values of the `ProductType` members. -/
def productTypeOfString : String → Option ProductType
  | "book" => some ProductType.book
  | "food" => some ProductType.food
  | "gadget" => some ProductType.gadget
  | "other" => some ProductType.other
  | _ => none

/-- A validated `ProductDetails` (models.py).  `cost_set` records whether
the cost field was present in the input (pydantic tracks this as the
fields-set metadata used by `dict(exclude_unset=True)`); the three required
fields name, type and inventory are always set in a validated instance. -/
structure ProductDetails where
  name : String
  type : ProductType
  inventory : Int
  cost : Rat
  cost_set : Bool
deriving DecidableEq

/-- A stored `Product` (models.py): ProductDetails plus the id. -/
structure Product where
  id : Int
  name : String
  type : ProductType
  inventory : Int
  cost : Rat
deriving DecidableEq

/-- `ProductId` (models.py): projection exposing only the id. -/
structure ProductId where
  id : Int
deriving DecidableEq

/-- fastapi `HTTPException` as raised by services.py. -/
structure HTTPException where
  status_code : Nat
  detail : String
deriving DecidableEq

/-- The one exception value services.py ever raises. -/
def productNotFound : HTTPException :=
  { status_code := 404, detail := "Product not found" }

/-- Validation of the `name` field: pydantic type `str`, required, no
further constraint declared in models.py (a missing field is a
field-required error; a string value of any length is accepted). -/
def validate_name : Option RawVal → Except String String
  | none => Except.error "field required"
  | some (RawVal.vstr s) => Except.ok s
  | some _ => Except.error "str type expected"

/-- Validation of the `type` field: pydantic `ProductType` enum, required;
the value must be one of the four member strings. -/
def validate_type : Option RawVal → Except String ProductType
  | none => Except.error "field required"
  | some (RawVal.vstr s) =>
      match productTypeOfString s with
      | some t => Except.ok t
      | none => Except.error "value is not a valid enumeration member"
  | some _ => Except.error "value is not a valid enumeration member"

/-- pydantic `StrictInt` type validation: only an actual integer is
accepted; booleans, floats, numeric strings and null are rejected
(pydantic strict_int_validator checks isinstance int and not bool). -/
def strict_int : RawVal → Except String Int
  | RawVal.vint n => Except.ok n
  | _ => Except.error "value is not a valid integer"

/-- The `check_inventory` validator body (models.py): range check
`if v < 1 or v > 9999: raise`.  Its isinstance-int-and-not-bool guard is
already enforced by `strict_int`, which is why the argument is `Int`. -/
def check_inventory (v : Int) : Except String Int :=
  if v < 1 ∨ v > 9999 then
    Except.error "Value should be greater than 1 and less than 9999"
  else Except.ok v

/-- Validation of the `inventory` field: required, `StrictInt`, then the
`check_inventory` validator. -/
def validate_inventory : Option RawVal → Except String Int
  | none => Except.error "field required"
  | some v => strict_int v >>= check_inventory

/-- The `check_cost` validator body (models.py), declared `pre=True,
always=True`: rejects an explicit null before type validation. -/
def check_cost (v : RawVal) : Except String RawVal :=
  if v = RawVal.vnull then Except.error "Cost must not be null"
  else Except.ok v

/-- pydantic `StrictFloat` type validation: only an actual float is
accepted (an int is not a float). -/
def strict_float : RawVal → Except String Rat
  | RawVal.vfloat q => Except.ok q
  | _ => Except.error "value is not a valid float"

/-- The bound 999.99 from `Field(le=999.99)`, as a rational. -/
def costUpperBound : Rat := mkRat 99999 100

/-- The `Field(ge=0.00, le=999.99)` bounds on cost. -/
def cost_range (q : Rat) : Except String Rat :=
  if q < 0 then Except.error "ensure this value is greater than or equal to 0"
  else if q > costUpperBound then
    Except.error "ensure this value is less than or equal to 999.99"
  else Except.ok q

/-- Validation of the `cost` field: `Optional[StrictFloat] =
Field(default=0.00, le=999.99, ge=0.00)` with the `check_cost` validator
(`pre=True, always=True`).  When the field is absent the default 0.00 runs
through the same pipeline (because of always=True) and the field counts as
not explicitly set; when present the raw value runs through `check_cost`,
then strict float validation, then the range bounds.  The returned flag is
whether the field was present (pydantic fields-set). -/
def validate_cost : Option RawVal → Except String (Rat × Bool)
  | none =>
      (check_cost (RawVal.vfloat 0) >>= strict_float >>= cost_range).map
        (fun q => (q, false))
  | some v =>
      (check_cost v >>= strict_float >>= cost_range).map (fun q => (q, true))

/-- Turns one field validation outcome into its contribution to the
collected error list (pydantic reports all field violations together). -/
def fieldErrors {α : Type} : Except String α → List String
  | Except.ok _ => []
  | Except.error e => [e]

/-- Whole-body validation producing a `ProductDetails` (the pydantic model
construction performed at the request boundary by fastapi): every field is
validated and all violations are collected. -/
def parseProductDetails (r : RawInput) : Except (List String) ProductDetails :=
  match validate_name r.name, validate_type r.type,
      validate_inventory r.inventory, validate_cost r.cost with
  | Except.ok n, Except.ok t, Except.ok i, Except.ok c =>
      Except.ok { name := n, type := t, inventory := i,
                  cost := c.1, cost_set := c.2 }
  | en, et, ei, ec =>
      Except.error (fieldErrors en ++ fieldErrors et ++ fieldErrors ei ++
        fieldErrors ec)

/-- `Product.update_details` (models.py): `for field, value in
new_details.dict(exclude_unset=True).items(): setattr(self, field, value)`.
In a validated `ProductDetails` the required fields name, type and
inventory are always in the fields-set, so they are always overwritten;
cost is overwritten exactly when it was explicitly set; id is not a
`ProductDetails` field and is never touched. -/
def Product.update_details (p : Product) (d : ProductDetails) : Product :=
  { id := p.id, name := d.name, type := d.type, inventory := d.inventory,
    cost := if d.cost_set then d.cost else p.cost }

/-- Python `dict.get`: the value stored at key `k`, if any. -/
def dictGet (l : List (Int × Product)) (k : Int) : Option Product :=
  (l.find? (fun kp => kp.1 == k)).map Prod.snd

/-- Python `k in dict`: membership test. -/
def dictContains (l : List (Int × Product)) (k : Int) : Bool :=
  l.any (fun kp => kp.1 == k)

/-- In-place replacement of the value stored at key `k` (Python mutates the
Product object held by the dict, which cannot change its key or position). -/
def dictSet (l : List (Int × Product)) (k : Int) (v : Product) :
    List (Int × Product) :=
  l.map (fun kp => if kp.1 == k then (k, v) else kp)

/-- Python `dict[k] = v`: overwrite in place if the key exists (keeping its
position), otherwise append a new entry at the end. -/
def dictAssign (l : List (Int × Product)) (k : Int) (v : Product) :
    List (Int × Product) :=
  if dictContains l k then dictSet l k v else l ++ [(k, v)]

/-- Python `del dict[k]`: remove the entry with key `k`. -/
def dictRemove (l : List (Int × Product)) (k : Int) : List (Int × Product) :=
  l.filter (fun kp => kp.1 != k)

/-- The module-level mutable state of services.py: the `products` dict and
the `next_id` counter. -/
structure Store where
  products : List (Int × Product)
  next_id : Int
deriving DecidableEq

/-- The state of the globals at process start: empty dict, counter 1. -/
def Store.init : Store :=
  { products := [], next_id := 1 }

/-- `get_all_products_service`: list comprehension over `products.values()`
keeping products matching the optional type filter. -/
def get_all_products_service (s : Store) (t : Option ProductType) :
    List Product :=
  (s.products.map Prod.snd).filter
    (fun p =>
      match t with
      | none => true
      | some ty => p.type == ty)

/-- `create_product_service`: builds `Product(id=next_id,
**product_details.dict())` (the full dict, cost included whether or not it
was explicitly set), stores it at key `next_id`, increments the counter and
returns the `ProductId`. -/
def create_product_service (s : Store) (d : ProductDetails) :
    ProductId × Store :=
  let product : Product :=
    { id := s.next_id, name := d.name, type := d.type,
      inventory := d.inventory, cost := d.cost }
  ({ id := product.id },
    { products := dictAssign s.products s.next_id product,
      next_id := s.next_id + 1 })

/-- `get_product_by_id_service`: `products.get(product_id)`, raising 404
when the lookup yields nothing (`if not product`; a Product instance is
always truthy, so the falsy case is exactly the missing key). -/
def get_product_by_id_service (s : Store) (i : Int) :
    Except HTTPException Product × Store :=
  match dictGet s.products i with
  | none => (Except.error productNotFound, s)
  | some p => (Except.ok p, s)

/-- `update_product_service`: 404 when the id is absent; otherwise mutates
the stored product via `update_details` and returns it. -/
def update_product_service (s : Store) (i : Int) (d : ProductDetails) :
    Except HTTPException Product × Store :=
  match dictGet s.products i with
  | none => (Except.error productNotFound, s)
  | some p =>
      let p' := p.update_details d
      (Except.ok p',
        { products := dictSet s.products i p', next_id := s.next_id })

/-- `delete_product_service`: 404 when the id is absent; otherwise deletes
the entry. -/
def delete_product_service (s : Store) (i : Int) :
    Except HTTPException Unit × Store :=
  if dictContains s.products i then
    (Except.ok (), { products := dictRemove s.products i,
                     next_id := s.next_id })
  else (Except.error productNotFound, s)

/-- The POST /products boundary (routes.py + fastapi): body validation
happens before the handler runs; a validation failure becomes a 400
response and the service is never invoked. -/
def create_product_boundary (s : Store) (r : RawInput) :
    Except (List String) ProductId × Store :=
  match parseProductDetails r with
  | Except.error es => (Except.error es, s)
  | Except.ok d =>
      (Except.ok (create_product_service s d).1, (create_product_service s d).2)

/-- The PUT /products/id boundary (routes.py + fastapi): body validation
first (400 on failure, service untouched), then the update service (which
may itself fail with 404). -/
def update_product_boundary (s : Store) (i : Int) (r : RawInput) :
    Except (List String) (Except HTTPException Product) × Store :=
  match parseProductDetails r with
  | Except.error es => (Except.error es, s)
  | Except.ok d =>
      (Except.ok (update_product_service s i d).1,
        (update_product_service s i d).2)

/-- Boolean success test for validation and service outcomes. -/
def isOkE {ε α : Type} : Except ε α → Bool
  | Except.ok _ => true
  | Except.error _ => false

/-- One client operation against the service layer. -/
inductive Op where
  | createOp (d : ProductDetails) : Op
  | getOp (i : Int) : Op
  | updateOp (i : Int) (d : ProductDetails) : Op
  | deleteOp (i : Int) : Op
  | listOp (t : Option ProductType) : Op

/-- The effect of one operation on the store. -/
def applyOp (s : Store) : Op → Store
  | Op.createOp d => (create_product_service s d).2
  | Op.getOp i => (get_product_by_id_service s i).2
  | Op.updateOp i d => (update_product_service s i d).2
  | Op.deleteOp i => (delete_product_service s i).2
  | Op.listOp _ => s

/-- The store after a sequence of operations. -/
def runOps (s : Store) : List Op → Store
  | [] => s
  | op :: rest => runOps (applyOp s op) rest

/-- The ids handed out by the create calls in a sequence of operations, in
call order. -/
def assignedIds (s : Store) : List Op → List Int
  | [] => []
  | Op.createOp d :: rest =>
      (create_product_service s d).1.id ::
        assignedIds (applyOp s (Op.createOp d)) rest
  | op :: rest => assignedIds (applyOp s op) rest

/-- The store invariant maintained by services.py: dict keys appear in
strictly increasing order (insertion order equals id order because ids are
handed out increasingly), every key is below the counter, and every stored
product carries its own key as id. -/
def StoreInv (s : Store) : Prop :=
  s.products.Pairwise (fun a b => a.1 < b.1) ∧
    ∀ kp ∈ s.products, kp.1 < s.next_id ∧ kp.2.id = kp.1

/-- A sample valid ProductDetails (the spec scenario product), used to
instantiate hypotheses at concrete inputs. -/
def dPen : ProductDetails :=
  { name := "Pen", type := ProductType.other, inventory := 50, cost := 0,
    cost_set := false }

/-- A sample raw request body for `dPen` (cost omitted). -/
def rPen : RawInput :=
  { name := some (RawVal.vstr "Pen"), type := some (RawVal.vstr "other"),
    inventory := some (RawVal.vint 50), cost := none }

/-- The Product stored after creating `dPen` in the initial store. -/
def pPen : Product :=
  { id := 1, name := "Pen", type := ProductType.other, inventory := 50,
    cost := 0 }

/-- The store holding exactly the spec-scenario product `pPen`. -/
def sPen : Store := (create_product_service Store.init dPen).2

/-- The spec-scenario update body: full required fields with inventory 10,
cost omitted. -/
def dTen : ProductDetails :=
  { name := "Pen", type := ProductType.other, inventory := 10, cost := 0,
    cost_set := false }

/-! ### Lemmas about the dict embedding -/

theorem dictGet_cons_pos {a : Int × Product} {l : List (Int × Product)}
    {k : Int} (h : a.1 = k) : dictGet (a :: l) k = some a.2 := by
  unfold dictGet
  rw [List.find?_cons_of_pos _ (by simp [h])]
  rfl

theorem dictGet_cons_neg {a : Int × Product} {l : List (Int × Product)}
    {k : Int} (h : ¬a.1 = k) : dictGet (a :: l) k = dictGet l k := by
  unfold dictGet
  rw [List.find?_cons_of_neg _ (by simp [h])]

theorem dictGet_eq_none_iff {l : List (Int × Product)} {k : Int} :
    dictGet l k = none ↔ ∀ kp ∈ l, kp.1 ≠ k := by
  induction l with
  | nil => simp [dictGet]
  | cons a tl ih =>
      by_cases h : a.1 = k
      · simp [dictGet_cons_pos h, h]
      · simp [dictGet_cons_neg h, ih, h]

theorem dictContains_eq_false_iff {l : List (Int × Product)} {k : Int} :
    dictContains l k = false ↔ ∀ kp ∈ l, kp.1 ≠ k := by
  simp [dictContains]

theorem dictContains_eq_false_iff_get {l : List (Int × Product)} {k : Int} :
    dictContains l k = false ↔ dictGet l k = none := by
  rw [dictContains_eq_false_iff, dictGet_eq_none_iff]

theorem dictGet_mem {l : List (Int × Product)} {k : Int} {p : Product}
    (h : dictGet l k = some p) : (k, p) ∈ l := by
  unfold dictGet at h
  rcases hf : l.find? (fun kp => kp.1 == k) with _ | kp
  · rw [hf] at h
    cases h
  · rw [hf] at h
    have hmem := List.mem_of_find?_eq_some hf
    have hbeq := List.find?_some hf
    simp at h
    simp only [beq_iff_eq] at hbeq
    rcases kp with ⟨k', p'⟩
    simp only at hbeq h
    rw [hbeq, h] at hmem
    exact hmem

theorem dictGet_append_of_none {l l' : List (Int × Product)} {k : Int}
    (h : dictGet l k = none) : dictGet (l ++ l') k = dictGet l' k := by
  induction l with
  | nil => simp
  | cons a tl ih =>
      by_cases ha : a.1 = k
      · rw [dictGet_cons_pos ha] at h
        cases h
      · rw [dictGet_cons_neg ha] at h
        rw [List.cons_append, dictGet_cons_neg ha]
        exact ih h

theorem dictSet_cons (a : Int × Product) (tl : List (Int × Product))
    (k : Int) (v : Product) :
    dictSet (a :: tl) k v =
      (if a.1 == k then (k, v) else a) :: dictSet tl k v := by
  rfl

theorem dictGet_dictSet_self {l : List (Int × Product)} {k : Int}
    {v : Product} (h : dictContains l k = true) :
    dictGet (dictSet l k v) k = some v := by
  induction l with
  | nil => simp [dictContains] at h
  | cons a tl ih =>
      by_cases ha : a.1 = k
      · rw [dictSet_cons, if_pos (by simp [ha])]
        exact dictGet_cons_pos rfl
      · rw [dictSet_cons, if_neg (by simp [ha]), dictGet_cons_neg ha]
        apply ih
        have h2 : a.1 = k ∨ ∃ x, (k, x) ∈ tl := by
          simpa [dictContains] using h
        rcases h2 with h1 | h1
        · exact absurd h1 ha
        · simp [dictContains]
          exact h1

theorem dictGet_dictSet_ne {l : List (Int × Product)} {k j : Int}
    {v : Product} (h : j ≠ k) :
    dictGet (dictSet l k v) j = dictGet l j := by
  induction l with
  | nil => rfl
  | cons a tl ih =>
      by_cases ha : a.1 = k
      · rw [dictSet_cons, if_pos (by simp [ha]),
          dictGet_cons_neg (by simpa using h.symm),
          dictGet_cons_neg (by rw [ha]; exact fun hh => h hh.symm)]
        exact ih
      · by_cases haj : a.1 = j
        · rw [dictSet_cons, if_neg (by simp [ha]), dictGet_cons_pos haj,
            dictGet_cons_pos haj]
        · rw [dictSet_cons, if_neg (by simp [ha]), dictGet_cons_neg haj,
            dictGet_cons_neg haj]
          exact ih

theorem dictGet_dictAssign_self (l : List (Int × Product)) (k : Int)
    (v : Product) : dictGet (dictAssign l k v) k = some v := by
  unfold dictAssign
  by_cases h : dictContains l k
  · rw [if_pos h]
    exact dictGet_dictSet_self h
  · rw [if_neg h]
    have hnone : dictGet l k = none :=
      dictContains_eq_false_iff_get.mp (by simpa using h)
    rw [dictGet_append_of_none hnone]
    exact dictGet_cons_pos rfl

theorem dictGet_dictRemove_self (l : List (Int × Product)) (k : Int) :
    dictGet (dictRemove l k) k = none := by
  rw [dictGet_eq_none_iff]
  intro kp hkp
  have h := List.mem_filter.mp hkp
  simpa using h.2

theorem dictSet_map_fst (l : List (Int × Product)) (k : Int) (v : Product) :
    (dictSet l k v).map Prod.fst = l.map Prod.fst := by
  induction l with
  | nil => rfl
  | cons a tl ih =>
      rw [dictSet_cons]
      by_cases ha : a.1 = k
      · simp [ha, ih]
      · simp [ha, ih]

theorem mem_dictSet {l : List (Int × Product)} {k : Int} {v : Product}
    {kp : Int × Product} (h : kp ∈ dictSet l k v) :
    kp = (k, v) ∨ kp ∈ l := by
  unfold dictSet at h
  rcases List.mem_map.mp h with ⟨a, ha, rfl⟩
  by_cases hk : a.1 = k
  · left
    simp [hk]
  · right
    simpa [hk] using ha

theorem mem_dictRemove {l : List (Int × Product)} {k : Int}
    {kp : Int × Product} (h : kp ∈ dictRemove l k) : kp ∈ l :=
  (List.mem_filter.mp h).1

/-! ### Lemmas about the service layer state -/

theorem get_snd (s : Store) (i : Int) :
    (get_product_by_id_service s i).2 = s := by
  unfold get_product_by_id_service
  cases dictGet s.products i <;> rfl

theorem update_next_id (s : Store) (i : Int) (d : ProductDetails) :
    (update_product_service s i d).2.next_id = s.next_id := by
  unfold update_product_service
  cases dictGet s.products i <;> rfl

theorem delete_next_id (s : Store) (i : Int) :
    (delete_product_service s i).2.next_id = s.next_id := by
  unfold delete_product_service
  by_cases h : dictContains s.products i = true
  · rw [if_pos h]
  · rw [if_neg h]

theorem create_id_eq (s : Store) (d : ProductDetails) :
    (create_product_service s d).1.id = s.next_id := rfl

theorem create_snd_eq (s : Store) (d : ProductDetails) :
    (create_product_service s d).2 =
      { products := dictAssign s.products s.next_id
          { id := s.next_id, name := d.name, type := d.type,
            inventory := d.inventory, cost := d.cost },
        next_id := s.next_id + 1 } := rfl

theorem update_details_id (p : Product) (d : ProductDetails) :
    (p.update_details d).id = p.id := rfl

theorem applyOp_next_id_le (s : Store) (op : Op) :
    s.next_id ≤ (applyOp s op).next_id := by
  cases op with
  | createOp d =>
      show s.next_id ≤ (create_product_service s d).2.next_id
      have h : (create_product_service s d).2.next_id = s.next_id + 1 := rfl
      rw [h]
      omega
  | getOp i =>
      show s.next_id ≤ (get_product_by_id_service s i).2.next_id
      rw [get_snd]
  | updateOp i d =>
      show s.next_id ≤ (update_product_service s i d).2.next_id
      rw [update_next_id]
  | deleteOp i =>
      show s.next_id ≤ (delete_product_service s i).2.next_id
      rw [delete_next_id]
  | listOp t => exact le_refl _

theorem runOps_next_id_le (s : Store) (ops : List Op) :
    s.next_id ≤ (runOps s ops).next_id := by
  induction ops generalizing s with
  | nil => exact le_refl _
  | cons op rest ih =>
      exact le_trans (applyOp_next_id_le s op) (ih (applyOp s op))

theorem assignedIds_lower (s : Store) (ops : List Op) :
    ∀ x ∈ assignedIds s ops, s.next_id ≤ x := by
  induction ops generalizing s with
  | nil =>
      intro x hx
      cases hx
  | cons op rest ih =>
      intro x hx
      have hle := applyOp_next_id_le s op
      cases op with
      | createOp d =>
          simp only [assignedIds] at hx
          rcases List.mem_cons.mp hx with h1 | h1
          · rw [create_id_eq] at h1
            omega
          · have h2 := ih (applyOp s (Op.createOp d)) x h1
            omega
      | getOp i =>
          have h2 := ih (applyOp s (Op.getOp i)) x hx
          omega
      | updateOp i d =>
          have h2 := ih (applyOp s (Op.updateOp i d)) x hx
          omega
      | deleteOp i =>
          have h2 := ih (applyOp s (Op.deleteOp i)) x hx
          omega
      | listOp t =>
          have h2 := ih (applyOp s (Op.listOp t)) x hx
          omega

theorem applyOp_create_next_id (s : Store) (d : ProductDetails) :
    (applyOp s (Op.createOp d)).next_id = s.next_id + 1 := rfl

theorem assignedIds_pairwise (s : Store) (ops : List Op) :
    (assignedIds s ops).Pairwise (· < ·) := by
  induction ops generalizing s with
  | nil => exact List.Pairwise.nil
  | cons op rest ih =>
      cases op with
      | createOp d =>
          simp only [assignedIds]
          refine List.Pairwise.cons ?_ (ih _)
          intro x hx
          have hlow := assignedIds_lower (applyOp s (Op.createOp d)) rest x hx
          rw [applyOp_create_next_id] at hlow
          rw [create_id_eq]
          omega
      | getOp i => exact ih _
      | updateOp i d => exact ih _
      | deleteOp i => exact ih _
      | listOp t => exact ih _

theorem storeInv_init : StoreInv Store.init := by
  constructor
  · exact List.Pairwise.nil
  · intro kp hkp
    cases hkp

theorem create_preserves_inv {s : Store} (hs : StoreInv s)
    (d : ProductDetails) : StoreInv (create_product_service s d).2 := by
  rcases hs with ⟨hp, hb⟩
  have hfresh : dictContains s.products s.next_id = false := by
    rw [dictContains_eq_false_iff]
    intro kp hkp
    exact ne_of_lt (hb kp hkp).1
  rw [create_snd_eq]
  constructor
  · show (dictAssign s.products s.next_id _).Pairwise _
    unfold dictAssign
    rw [hfresh]
    simp only [Bool.false_eq_true, if_false]
    rw [List.pairwise_append]
    refine ⟨hp, List.pairwise_singleton _ _, ?_⟩
    intro a ha b hb'
    rcases List.mem_singleton.mp hb' with rfl
    exact (hb a ha).1
  · intro kp hkp
    show kp.1 < s.next_id + 1 ∧ kp.2.id = kp.1
    unfold dictAssign at hkp
    rw [hfresh] at hkp
    simp only [Bool.false_eq_true, if_false] at hkp
    rcases List.mem_append.mp hkp with h1 | h1
    · have := hb kp h1
      exact ⟨by omega, this.2⟩
    · rcases List.mem_singleton.mp h1 with rfl
      exact ⟨by omega, rfl⟩

theorem update_preserves_inv {s : Store} (hs : StoreInv s) (i : Int)
    (d : ProductDetails) : StoreInv (update_product_service s i d).2 := by
  rcases hget : dictGet s.products i with _ | p
  · unfold update_product_service
    rw [hget]
    exact hs
  · rcases hs with ⟨hp, hb⟩
    have hmem := dictGet_mem hget
    have hip := hb _ hmem
    unfold update_product_service
    rw [hget]
    constructor
    · show (dictSet s.products i _).Pairwise _
      have h2 : ((dictSet s.products i (p.update_details d)).map
          Prod.fst).Pairwise (· < ·) := by
        rw [dictSet_map_fst]
        exact List.pairwise_map.mpr hp
      exact List.pairwise_map.mp h2
    · intro kp hkp
      show kp.1 < s.next_id ∧ kp.2.id = kp.1
      rcases mem_dictSet hkp with rfl | hkp'
      · exact ⟨hip.1, hip.2⟩
      · exact hb kp hkp'

theorem delete_preserves_inv {s : Store} (hs : StoreInv s) (i : Int) :
    StoreInv (delete_product_service s i).2 := by
  rcases hs with ⟨hp, hb⟩
  unfold delete_product_service
  by_cases h : dictContains s.products i = true
  · rw [if_pos h]
    constructor
    · exact List.Pairwise.sublist (List.filter_sublist _) hp
    · intro kp hkp
      exact hb kp (mem_dictRemove hkp)
  · rw [if_neg h]
    exact ⟨hp, hb⟩

theorem applyOp_preserves_inv {s : Store} (hs : StoreInv s) (op : Op) :
    StoreInv (applyOp s op) := by
  cases op with
  | createOp d => exact create_preserves_inv hs d
  | getOp i =>
      show StoreInv (get_product_by_id_service s i).2
      rw [get_snd]
      exact hs
  | updateOp i d => exact update_preserves_inv hs i d
  | deleteOp i => exact delete_preserves_inv hs i
  | listOp t => exact hs

theorem runOps_preserves_inv {s : Store} (hs : StoreInv s) (ops : List Op) :
    StoreInv (runOps s ops) := by
  induction ops generalizing s with
  | nil => exact hs
  | cons op rest ih => exact ih (applyOp_preserves_inv hs op)

/-! ### Lemmas about validation -/

theorem except_bind_ok {ε α β : Type} (a : α) (f : α → Except ε β) :
    (Except.ok a >>= f : Except ε β) = f a := rfl

theorem except_bind_error {ε α β : Type} (e : ε) (f : α → Except ε β) :
    ((Except.error e : Except ε α) >>= f) = Except.error e := rfl

theorem validate_cost_vfloat (q : Rat) :
    validate_cost (some (RawVal.vfloat q)) =
      (cost_range q).map (fun x => (x, true)) := rfl

theorem validate_cost_some_snd {v : RawVal} {c : Rat × Bool}
    (h : validate_cost (some v) = Except.ok c) : c.2 = true := by
  cases v with
  | vnull => cases h
  | vbool b => cases h
  | vint n => cases h
  | vstr str => cases h
  | vfloat q =>
      rw [validate_cost_vfloat] at h
      rcases hq : cost_range q with e | q' <;> rw [hq] at h
      · cases h
      · cases h
        rfl

theorem validate_cost_ok_range {v : Option RawVal} {c : Rat × Bool}
    (h : validate_cost v = Except.ok c) : 0 ≤ c.1 ∧ c.1 ≤ costUpperBound := by
  have hrange : ∀ q q' : Rat, cost_range q = Except.ok q' →
      0 ≤ q' ∧ q' ≤ costUpperBound := by
    intro q q' hq
    unfold cost_range at hq
    by_cases h1 : q < 0
    · rw [if_pos h1] at hq
      cases hq
    · rw [if_neg h1] at hq
      by_cases h2 : q > costUpperBound
      · rw [if_pos h2] at hq
        cases hq
      · rw [if_neg h2] at hq
        cases hq
        exact ⟨le_of_not_lt h1, le_of_not_lt h2⟩
  cases v with
  | none =>
      rcases hq : cost_range 0 with e | q' <;>
        rw [show validate_cost none =
          (cost_range 0).map (fun x => (x, false)) from rfl, hq] at h
      · cases h
      · cases h
        exact hrange 0 q' hq
  | some v' =>
      cases v' with
      | vnull => cases h
      | vbool b => cases h
      | vint n => cases h
      | vstr str => cases h
      | vfloat q =>
          rw [validate_cost_vfloat] at h
          rcases hq : cost_range q with e | q' <;> rw [hq] at h
          · cases h
          · cases h
            exact hrange q q' hq

theorem parse_ok_inv {r : RawInput} {d : ProductDetails}
    (h : parseProductDetails r = Except.ok d) :
    validate_name r.name = Except.ok d.name ∧
      validate_type r.type = Except.ok d.type ∧
      validate_inventory r.inventory = Except.ok d.inventory ∧
      validate_cost r.cost = Except.ok (d.cost, d.cost_set) := by
  rcases hn : validate_name r.name with en | n <;>
    rcases ht : validate_type r.type with et | t <;>
      rcases hi : validate_inventory r.inventory with ei | i <;>
        rcases hc : validate_cost r.cost with ec | c <;>
          simp [parseProductDetails, hn, ht, hi, hc] at h
  rcases c with ⟨cv, cs⟩
  subst h
  exact ⟨rfl, rfl, rfl, rfl⟩

/-! ### Reduction lemmas for the service branches -/

theorem get_found {s : Store} {i : Int} {p : Product}
    (h : dictGet s.products i = some p) :
    (get_product_by_id_service s i).1 = Except.ok p := by
  unfold get_product_by_id_service
  rw [h]

theorem get_missing {s : Store} {i : Int}
    (h : dictGet s.products i = none) :
    (get_product_by_id_service s i).1 = Except.error productNotFound := by
  unfold get_product_by_id_service
  rw [h]

theorem update_found {s : Store} {i : Int} {p : Product} (d : ProductDetails)
    (h : dictGet s.products i = some p) :
    update_product_service s i d =
      (Except.ok (p.update_details d),
        { products := dictSet s.products i (p.update_details d),
          next_id := s.next_id }) := by
  unfold update_product_service
  rw [h]

theorem update_missing {s : Store} {i : Int} (d : ProductDetails)
    (h : dictGet s.products i = none) :
    update_product_service s i d = (Except.error productNotFound, s) := by
  unfold update_product_service
  rw [h]

theorem delete_found {s : Store} {i : Int}
    (h : dictContains s.products i = true) :
    delete_product_service s i =
      (Except.ok (), { products := dictRemove s.products i,
                       next_id := s.next_id }) := by
  unfold delete_product_service
  rw [if_pos h]

theorem delete_missing {s : Store} {i : Int}
    (h : dictContains s.products i = false) :
    delete_product_service s i = (Except.error productNotFound, s) := by
  unfold delete_product_service
  rw [if_neg (by simp [h])]

theorem dictContains_of_get {l : List (Int × Product)} {k : Int}
    {p : Product} (h : dictGet l k = some p) : dictContains l k = true := by
  by_cases hc : dictContains l k = true
  · exact hc
  · exfalso
    have h2 := dictContains_eq_false_iff_get.mp (by simpa using hc)
    rw [h2] at h
    cases h

theorem isOkE_true_iff {ε α : Type} (x : Except ε α) :
    isOkE x = true ↔ ∃ a, x = Except.ok a := by
  cases x <;> simp [isOkE]

/-! ### Claim theorems -/

/-- Claim C1: for every store state and every valid ProductDetails `d`,
`create(d)` followed by `get` on the returned id succeeds and returns a
Product whose fields equal the fields of `d` plus the id assigned by
create. -/
theorem create_then_get_returns_created_product (s : Store)
    (d : ProductDetails) :
    (get_product_by_id_service (create_product_service s d).2
        (create_product_service s d).1.id).1 =
      Except.ok { id := (create_product_service s d).1.id, name := d.name,
                  type := d.type, inventory := d.inventory,
                  cost := d.cost } := by
  apply get_found
  exact dictGet_dictAssign_self s.products s.next_id _

/-- Claim C2: the id counter starts at 1; across any sequence of
operations run from the initial store, the ids assigned by successive
create calls are strictly increasing (hence never reused, deletions
included), and at the end every stored product sits at a distinct key
which equals its own id. -/
theorem ids_strictly_increasing_and_unique (ops : List Op) :
    Store.init.next_id = 1 ∧
      (assignedIds Store.init ops).Pairwise (· < ·) ∧
      (assignedIds Store.init ops).Nodup ∧
      ((runOps Store.init ops).products.map Prod.fst).Nodup ∧
      ∀ kp ∈ (runOps Store.init ops).products, kp.2.id = kp.1 := by
  refine ⟨rfl, assignedIds_pairwise _ _, ?_, ?_, ?_⟩
  · exact (assignedIds_pairwise _ _).imp ne_of_lt
  · have hinv := runOps_preserves_inv storeInv_init ops
    exact (List.pairwise_map.mpr hinv.1).imp ne_of_lt
  · intro kp hkp
    exact ((runOps_preserves_inv storeInv_init ops).2 kp hkp).2

/-- Claim C3: when product `p` is stored under id `i`, `update(i, d)`
returns the product obtained by overwriting onto `p` exactly the fields
explicitly set in `d` (the required fields name, type and inventory are
always set in a validated body; cost only when supplied), keeps the id,
stores that product back under `i`, and touches no other entry and not the
counter. -/
theorem update_overwrites_exactly_present_fields (s : Store) (i : Int)
    (p : Product) (d : ProductDetails)
    (h : dictGet s.products i = some p) :
    (update_product_service s i d).1 = Except.ok (p.update_details d) ∧
      (p.update_details d).id = p.id ∧
      (p.update_details d).name = d.name ∧
      (p.update_details d).type = d.type ∧
      (p.update_details d).inventory = d.inventory ∧
      (p.update_details d).cost = (if d.cost_set then d.cost else p.cost) ∧
      dictGet (update_product_service s i d).2.products i =
        some (p.update_details d) ∧
      (∀ j, j ≠ i → dictGet (update_product_service s i d).2.products j =
        dictGet s.products j) ∧
      (update_product_service s i d).2.next_id = s.next_id := by
  rw [update_found d h]
  refine ⟨rfl, rfl, rfl, rfl, rfl, rfl, ?_, ?_, rfl⟩
  · exact dictGet_dictSet_self (dictContains_of_get h)
  · intro j hj
    exact dictGet_dictSet_ne hj

/-- Witness for C3: the spec scenario, updating the stored Pen product
with inventory 10. -/
theorem update_overwrites_exactly_present_fields_witness :
    dictGet sPen.products 1 = some pPen ∧
      (update_product_service sPen 1 dTen).1 =
        Except.ok (pPen.update_details dTen) :=
  ⟨by decide,
    (update_overwrites_exactly_present_fields sPen 1 pPen dTen (by decide)).1⟩

/-- Claim C4: for an id absent from the store, get, update and delete all
fail with the 404 "Product not found" exception; that exception is the
only error any service operation ever returns; and an id just deleted is
absent. -/
theorem missing_id_fails_not_found (s : Store) (i : Int)
    (d : ProductDetails) (h : dictGet s.products i = none) :
    (get_product_by_id_service s i).1 = Except.error productNotFound ∧
      (update_product_service s i d).1 = Except.error productNotFound ∧
      (delete_product_service s i).1 = Except.error productNotFound ∧
      productNotFound = { status_code := 404, detail := "Product not found" } ∧
      (∀ s' j e, (get_product_by_id_service s' j).1 = Except.error e →
        e = productNotFound) ∧
      (∀ s' j d' e, (update_product_service s' j d').1 = Except.error e →
        e = productNotFound) ∧
      (∀ s' j e, (delete_product_service s' j).1 = Except.error e →
        e = productNotFound) ∧
      (∀ s' j, (delete_product_service s' j).1 = Except.ok () →
        dictGet (delete_product_service s' j).2.products j = none) := by
  have hc : dictContains s.products i = false :=
    dictContains_eq_false_iff_get.mpr h
  refine ⟨get_missing h, ?_, ?_, rfl, ?_, ?_, ?_, ?_⟩
  · rw [update_missing d h]
  · rw [delete_missing hc]
  · intro s' j e hE
    rcases hg : dictGet s'.products j with _ | p
    · rw [get_missing hg] at hE
      injection hE with h2
      exact h2.symm
    · rw [get_found hg] at hE
      exact Except.noConfusion hE
  · intro s' j d' e hE
    rcases hg : dictGet s'.products j with _ | p
    · rw [update_missing d' hg] at hE
      injection hE with h2
      exact h2.symm
    · rw [update_found d' hg] at hE
      exact Except.noConfusion hE
  · intro s' j e hE
    by_cases hcon : dictContains s'.products j = true
    · rw [delete_found hcon] at hE
      exact Except.noConfusion hE
    · rw [delete_missing (by simpa using hcon)] at hE
      injection hE with h2
      exact h2.symm
  · intro s' j hE
    by_cases hcon : dictContains s'.products j = true
    · rw [delete_found hcon]
      exact dictGet_dictRemove_self s'.products j
    · rw [delete_missing (by simpa using hcon)] at hE
      exact Except.noConfusion hE

/-- Witness for C4: id 1 is absent from the empty initial store and get
fails with 404 there. -/
theorem missing_id_fails_not_found_witness :
    dictGet Store.init.products 1 = none ∧
      (get_product_by_id_service Store.init 1).1 =
        Except.error productNotFound :=
  ⟨by decide, (missing_id_fails_not_found Store.init 1 dPen (by decide)).1⟩

/-- Claim C5: list with a type filter returns exactly the stored products
of that type, and without a filter all stored products; the result is a
sublist of the stored values (so creation order is preserved) and the
operation is total. -/
theorem list_returns_type_filtered_in_order (s : Store)
    (t : Option ProductType) :
    List.Sublist (get_all_products_service s t) (s.products.map Prod.snd) ∧
      (∀ p, p ∈ get_all_products_service s t ↔
        p ∈ s.products.map Prod.snd ∧ ∀ ty, t = some ty → p.type = ty) ∧
      get_all_products_service s none = s.products.map Prod.snd := by
  refine ⟨List.filter_sublist _, ?_, ?_⟩
  · intro p
    cases t with
    | none =>
        rw [get_all_products_service, List.mem_filter]
        simp
    | some ty =>
        rw [get_all_products_service, List.mem_filter]
        simp
  · rw [get_all_products_service]
    simp

/-- Claim C6: inventory validation accepts exactly the integer inputs in
the inclusive range [1, 9999]; in particular 1 and 9999 pass, while 0,
10000, the string "5", the boolean true and the fractional number 5.5 are
all rejected (a boolean can never reach the integer branch). -/
theorem inventory_accepts_exactly_ints_1_to_9999 (v : Option RawVal) :
    (isOkE (validate_inventory v) = true ↔
      ∃ n : Int, v = some (RawVal.vint n) ∧ 1 ≤ n ∧ n ≤ 9999) ∧
      validate_inventory (some (RawVal.vint 1)) = Except.ok 1 ∧
      validate_inventory (some (RawVal.vint 9999)) = Except.ok 9999 ∧
      isOkE (validate_inventory (some (RawVal.vint 0))) = false ∧
      isOkE (validate_inventory (some (RawVal.vint 10000))) = false ∧
      isOkE (validate_inventory (some (RawVal.vstr "5"))) = false ∧
      (∀ b : Bool, isOkE (validate_inventory (some (RawVal.vbool b))) = false) ∧
      isOkE (validate_inventory (some (RawVal.vfloat (mkRat 11 2)))) = false ∧
      isOkE (validate_inventory none) = false := by
  refine ⟨⟨?_, ?_⟩, by decide, by decide, by decide, by decide, by decide,
    fun b => rfl, rfl, rfl⟩
  · intro h
    cases v with
    | none => cases h
    | some v' =>
        cases v' with
        | vnull => cases h
        | vbool b => cases h
        | vstr str => cases h
        | vfloat q => cases h
        | vint n =>
            refine ⟨n, rfl, ?_⟩
            have heq : validate_inventory (some (RawVal.vint n)) =
                check_inventory n := rfl
            rw [heq] at h
            unfold check_inventory at h
            by_cases hb : n < 1 ∨ n > 9999
            · rw [if_pos hb] at h
              cases h
            · omega
  · rintro ⟨n, rfl, h1, h2⟩
    have heq : validate_inventory (some (RawVal.vint n)) =
        check_inventory n := rfl
    rw [heq]
    unfold check_inventory
    rw [if_neg (by omega)]
    rfl

/-- Claim C7: cost absent defaults to (0, not set); an explicit null is
rejected with "Cost must not be null"; a float input passes exactly when
it lies in [0, 999.99]; any accepted cost lies in that range; the
boundary checks -0.01 and 1000.00 fail while 0.00 and 999.99 pass. -/
theorem cost_validation_semantics :
    costUpperBound = 99999 / 100 ∧
      validate_cost none = Except.ok (0, false) ∧
      validate_cost (some RawVal.vnull) =
        Except.error "Cost must not be null" ∧
      (∀ q : Rat, isOkE (validate_cost (some (RawVal.vfloat q))) = true ↔
        0 ≤ q ∧ q ≤ costUpperBound) ∧
      (∀ v c, validate_cost v = Except.ok c →
        0 ≤ c.1 ∧ c.1 ≤ costUpperBound) ∧
      isOkE (validate_cost (some (RawVal.vfloat (mkRat (-1) 100)))) = false ∧
      isOkE (validate_cost (some (RawVal.vfloat 1000))) = false ∧
      validate_cost (some (RawVal.vfloat 0)) = Except.ok (0, true) ∧
      validate_cost (some (RawVal.vfloat costUpperBound)) =
        Except.ok (costUpperBound, true) := by
  refine ⟨by rw [costUpperBound]; norm_num [Rat.mkRat_eq_div], by decide,
    by decide, ?_, fun v c h => validate_cost_ok_range h, by decide,
    by decide, by decide, by decide⟩
  intro q
  rw [validate_cost_vfloat]
  unfold cost_range
  by_cases h1 : q < 0
  · rw [if_pos h1]
    constructor
    · intro hf
      exact absurd hf (by simp [isOkE, Except.map])
    · rintro ⟨h2, h3⟩
      exact absurd h1 (not_lt.mpr h2)
  · rw [if_neg h1]
    by_cases h2 : q > costUpperBound
    · rw [if_pos h2]
      constructor
      · intro hf
        exact absurd hf (by simp [isOkE, Except.map])
      · rintro ⟨h3, h4⟩
        exact absurd h2 (not_lt.mpr h4)
    · rw [if_neg h2]
      constructor
      · intro _
        exact ⟨not_lt.mp h1, not_lt.mp h2⟩
      · intro _
        rfl

/-- Claim C8 counterexample: a body whose name is the empty string passes
validation (models.py declares `name: str` with no non-emptiness
constraint), contradicting the claim that every empty-name input is
rejected. -/
theorem empty_name_is_accepted_counterexample :
    parseProductDetails
        { name := some (RawVal.vstr ""), type := some (RawVal.vstr "book"),
          inventory := some (RawVal.vint 50), cost := none } =
      Except.ok { name := "", type := ProductType.book, inventory := 50,
                  cost := 0, cost_set := false } := by
  decide

/-- Claim C8 amended: the name field must be a string, and any string —
the empty string included — is accepted (no non-emptiness check). -/
theorem name_accepts_any_string :
    (∀ str : String, validate_name (some (RawVal.vstr str)) =
      Except.ok str) ∧
      validate_name (some (RawVal.vstr "")) = Except.ok "" :=
  ⟨fun _ => rfl, rfl⟩

/-- Claim C9: failed operations leave the store exactly as it was: get
never mutates, a not-found update or delete returns the untouched store,
and a validation failure at the request boundary returns before the
service (and hence the store) is ever reached. -/
theorem failed_operations_leave_store_unchanged (s : Store) (i : Int)
    (d : ProductDetails) (r : RawInput) :
    (get_product_by_id_service s i).2 = s ∧
      (∀ e, (update_product_service s i d).1 = Except.error e →
        (update_product_service s i d).2 = s) ∧
      (∀ e, (delete_product_service s i).1 = Except.error e →
        (delete_product_service s i).2 = s) ∧
      (∀ es, parseProductDetails r = Except.error es →
        (create_product_boundary s r).2 = s) ∧
      (∀ es, parseProductDetails r = Except.error es →
        (update_product_boundary s i r).2 = s) := by
  refine ⟨get_snd s i, ?_, ?_, ?_, ?_⟩
  · intro e hE
    rcases hg : dictGet s.products i with _ | p
    · rw [update_missing d hg]
    · rw [update_found d hg] at hE
      exact Except.noConfusion hE
  · intro e hE
    by_cases hcon : dictContains s.products i = true
    · rw [delete_found hcon] at hE
      exact Except.noConfusion hE
    · rw [delete_missing (by simpa using hcon)]
  · intro es hP
    unfold create_product_boundary
    rw [hP]
  · intro es hP
    unfold update_product_boundary
    rw [hP]

/-- Witness for C9: updating the absent id 1 in the empty initial store
fails and returns the store unchanged. -/
theorem failed_operations_leave_store_unchanged_witness :
    (update_product_service Store.init 1 dPen).1 =
        Except.error productNotFound ∧
      (update_product_service Store.init 1 dPen).2 = Store.init :=
  ⟨by decide,
    (failed_operations_leave_store_unchanged Store.init 1 dPen rPen).2.1
      productNotFound (by decide)⟩

/-- Claim C10: name, type and inventory are required — a body missing any
of them fails validation, so a validated body always carries all three —
while cost is the only omittable field: it is marked set exactly when it
was present, and a body omitting cost can validate. -/
theorem required_fields_and_cost_only_optional (r : RawInput)
    (d : ProductDetails) (h : parseProductDetails r = Except.ok d) :
    r.name ≠ none ∧ r.type ≠ none ∧ r.inventory ≠ none ∧
      (d.cost_set = true ↔ r.cost ≠ none) ∧
      (∀ r' : RawInput,
        r'.name = none ∨ r'.type = none ∨ r'.inventory = none →
        isOkE (parseProductDetails r') = false) ∧
      (∃ (r' : RawInput) (d' : ProductDetails),
        r'.cost = none ∧ parseProductDetails r' = Except.ok d') := by
  obtain ⟨hn, ht, hi, hc⟩ := parse_ok_inv h
  refine ⟨?_, ?_, ?_, ⟨?_, ?_⟩, ?_, ⟨rPen, dPen, rfl, by decide⟩⟩
  · intro hnone
    rw [hnone] at hn
    exact Except.noConfusion hn
  · intro hnone
    rw [hnone] at ht
    exact Except.noConfusion ht
  · intro hnone
    rw [hnone] at hi
    exact Except.noConfusion hi
  · intro hset hnone
    rw [hnone] at hc
    have h0 : validate_cost none = Except.ok (0, false) := by decide
    rw [h0] at hc
    have h2 := congrArg Prod.snd (Except.ok.inj hc)
    rw [hset] at h2
    exact Bool.noConfusion h2
  · intro hne
    rcases hv : r.cost with _ | v
    · exact absurd hv hne
    · rw [hv] at hc
      exact validate_cost_some_snd hc
  · intro r' hmiss
    cases hok : isOkE (parseProductDetails r') with
    | false => rfl
    | true =>
        exfalso
        obtain ⟨d', hd'⟩ := (isOkE_true_iff _).mp hok
        obtain ⟨hn', ht', hi', _⟩ := parse_ok_inv hd'
        rcases hmiss with hm | hm | hm
        · rw [hm] at hn'
          exact Except.noConfusion hn'
        · rw [hm] at ht'
          exact Except.noConfusion ht'
        · rw [hm] at hi'
          exact Except.noConfusion hi'

/-- Witness for C10: the spec-scenario body (cost omitted) validates and
its three required fields are present. -/
theorem required_fields_and_cost_only_optional_witness :
    parseProductDetails rPen = Except.ok dPen ∧ rPen.name ≠ none :=
  ⟨by decide,
    (required_fields_and_cost_only_optional rPen dPen (by decide)).1⟩
